import Mathlib

/-!
# CloudTask CLI — verification of the query parser and SQL translator

Shallow embedding of `src/cloudtask.py`:

* `parse_query` (lines 476–581): the query-DSL parser, including the
  tokenizing regular expression, the full-consumption check, operator
  resolution, wildcard handling, value shaping, unit multipliers and type
  coercion.  Python dictionaries are embedded as insertion-ordered
  association lists (`alistGet`/`alistSet`/`alistPop` mirror `d[k]`,
  `d[k] = v` and `d.pop(k, None)`).  Because `parse_query` starts from
  `base_query.copy()` — a *shallow* copy whose inner per-field dictionaries
  stay shared with the caller's dictionary — the embedding threads the
  observable state of the caller's `base_query` dictionary explicitly:
  `parseQueryEff` returns both the parser's result and the value of the
  supplied base dictionary after the call.

* `SQLiteBackend.search_tasks` (lines 346–405): only the pure part that
  builds the SQL text and the bound-parameter list is embedded
  (`buildSearch`); executing the statement is I/O and out of scope.

Python `float` values are modelled as exact rationals (`ℚ`): on the inputs
appearing in this development every multiplication is exact, and the special
floating-point values (`inf`, `nan`) and digit underscores accepted by
Python's `float(...)` cannot reach the conversion site because underscores
are replaced by spaces beforehand; `pyFloat?` models the finite decimal and
scientific literal forms.
-/

namespace CloudTask

/-! ## Python string primitives (ASCII) -/

/-- The characters stripped by Python's `str.strip()` (ASCII whitespace). -/
def wsChars : List Char := [' ', '\t', '\n', '\r', '\x0b', '\x0c']

/-- `s.strip(chars)` on a character list: drop characters of `set` from both ends. -/
def pyStripGen (set : List Char) (cs : List Char) : List Char :=
  ((cs.dropWhile (· ∈ set)).reverse.dropWhile (· ∈ set)).reverse

/-- `s.strip()` (whitespace strip) on a character list. -/
def pyStripWs (cs : List Char) : List Char :=
  pyStripGen wsChars cs

/-- `s.replace('_', ' ')` on a character list. -/
def underscoreToSpace (cs : List Char) : List Char :=
  cs.map (fun c => if c = '_' then ' ' else c)

/-- `s.split(",")`: split on every comma, keeping empty pieces (Python keeps
them; the caller filters). -/
def splitOnComma : List Char → List (List Char)
  | [] => [[]]
  | c :: t =>
    if c = ',' then [] :: splitOnComma t
    else
      match splitOnComma t with
      | h :: r => (c :: h) :: r
      | [] => [[c]]

/-! ## The tokenizing regular expression

`parse_query` matches the pattern (line 508)

  `([a-zA-Z0-9_]+)( *[=><!]+| +(?:[lg]te?|nin|neq|eq|not ?eq|not ?in|in) )?( *)(\[[^\]]+\]|\"[^\"]+\"|[^ ]+)?( *)`

with `re.findall`.  The embedding implements this specific pattern as a
deterministic scanner.  Each group is matched greedily; the only
backtracking the pattern can perform — choosing between the alternatives of
group 2 and group 4, and retrying a shorter keyword-operator spelling when
the required trailing space is absent — is made explicit below.  Group 1
requires at least one character, so every match is non-empty and `findAll`
with `cs.length` fuel performs exactly the `re.findall` scan (each step
either consumes a full match of length ≥ 1 or skips one unmatchable
character, so the remaining fuel always dominates the remaining length:
see `matchClause_some_length`). -/

/-- `[a-zA-Z0-9_]` (ASCII, as in a Python character class). -/
def isWordChar (c : Char) : Bool :=
  c.isAlpha || c.isDigit || c = '_'

/-- `[=><!]`. -/
def isOpChar (c : Char) : Bool :=
  c = '=' || c = '>' || c = '<' || c = '!'

/-- Greedy `p+`: one or more characters satisfying `p`, or fail. -/
def span1 (p : Char → Bool) : List Char → Option (List Char × List Char)
  | [] => Option.none
  | c :: t => if p c then some (c :: t.takeWhile p, t.dropWhile p) else Option.none

/-- The keyword-operator spellings of group 2's second alternative, in the
order the regex alternation `[lg]te?|nin|neq|eq|not ?eq|not ?in|in` tries
them (a greedy `e?` / ` ?` tries the longer spelling first). -/
def opWords : List (List Char) :=
  [['l','t','e'], ['l','t'], ['g','t','e'], ['g','t'],
   ['n','i','n'], ['n','e','q'], ['e','q'],
   ['n','o','t',' ','e','q'], ['n','o','t','e','q'],
   ['n','o','t',' ','i','n'], ['n','o','t','i','n'],
   ['i','n']]

/-- Try each keyword spelling in order; a spelling matches only when it is a
prefix of the input and is followed by the literal space that ends group 2's
second alternative (the space is part of the group's text). -/
def tryWords : List (List Char) → List Char → Option (List Char × List Char)
  | [], _ => Option.none
  | w :: ws, cs =>
    if cs.take w.length = w then
      match cs.drop w.length with
      | ' ' :: r => some (w ++ [' '], r)
      | _ => tryWords ws cs
    else tryWords ws cs

/-- Group 2, first alternative ` *[=><!]+`: optional spaces, then one or
more operator symbols.  Backtracking over the space run is vacuous because a
space is never an operator symbol. -/
def matchOpSym (cs : List Char) : Option (List Char × List Char) :=
  let sp := cs.takeWhile (· = ' ')
  match span1 isOpChar (cs.dropWhile (· = ' ')) with
  | some (sym, r) => some (sp ++ sym, r)
  | Option.none => Option.none

/-- Group 2, second alternative ` +(?:…) `: one or more spaces, a keyword
spelling, and a trailing space. -/
def matchOpWord (cs : List Char) : Option (List Char × List Char) :=
  match span1 (· = ' ') cs with
  | some (sp, r) =>
    match tryWords opWords r with
    | some (w, r2) => some (sp ++ w, r2)
    | Option.none => Option.none
  | Option.none => Option.none

/-- Group 2 `( *[=><!]+| +(?:…) )?`: first alternative, then second, then
the empty match of `?`. -/
def matchOp (cs : List Char) : List Char × List Char :=
  match matchOpSym cs with
  | some p => p
  | Option.none =>
    match matchOpWord cs with
    | some p => p
    | Option.none => ([], cs)

/-- Group 4, first alternative `\[[^\]]+\]`. -/
def matchBracket : List Char → Option (List Char × List Char)
  | '[' :: t =>
    let body := t.takeWhile (· ≠ ']')
    match t.dropWhile (· ≠ ']') with
    | ']' :: r => if body.isEmpty then Option.none else some ('[' :: (body ++ [']']), r)
    | _ => Option.none
  | _ => Option.none

/-- Group 4, second alternative `\"[^\"]+\"`. -/
def matchQuoted : List Char → Option (List Char × List Char)
  | '"' :: t =>
    let body := t.takeWhile (· ≠ '"')
    match t.dropWhile (· ≠ '"') with
    | '"' :: r => if body.isEmpty then Option.none else some ('"' :: (body ++ ['"']), r)
    | _ => Option.none
  | _ => Option.none

/-- Group 4 `(\[[^\]]+\]|\"[^\"]+\"|[^ ]+)?`: bracketed list, quoted string,
run of non-spaces, or the empty match of `?`. -/
def matchValue (cs : List Char) : List Char × List Char :=
  match matchBracket cs with
  | some p => p
  | Option.none =>
    match matchQuoted cs with
    | some p => p
    | Option.none =>
      match span1 (· ≠ ' ') cs with
      | some p => p
      | Option.none => ([], cs)

/-- One tuple produced by `re.findall`: the five captured groups
`(field, operator, whitespace, value, whitespace)`. -/
structure Clause where
  field : List Char
  op : List Char
  ws1 : List Char
  value : List Char
  ws2 : List Char
  deriving DecidableEq

/-- The raw text a match consumed: the five groups in order. -/
def Clause.text (c : Clause) : List Char :=
  c.field ++ c.op ++ c.ws1 ++ c.value ++ c.ws2

/-- Attempt the whole pattern at the head of `cs`; on success return the
captured groups and the unconsumed rest. -/
def matchClause (cs : List Char) : Option (Clause × List Char) :=
  match span1 isWordChar cs with
  | Option.none => Option.none
  | some (f, r1) =>
    let (op, r2) := matchOp r1
    let ws1 := r2.takeWhile (· = ' ')
    let r3 := r2.dropWhile (· = ' ')
    let (v, r4) := matchValue r3
    let ws2 := r4.takeWhile (· = ' ')
    let r5 := r4.dropWhile (· = ' ')
    some (⟨f, op, ws1, v, ws2⟩, r5)

/-- The `re.findall` scan with explicit fuel: at each position try the
pattern; on success continue after the match, otherwise skip one character. -/
def findAllFuel : Nat → List Char → List Clause
  | 0, _ => []
  | _ + 1, [] => []
  | fuel + 1, c :: t =>
    match matchClause (c :: t) with
    | some (cl, r) => cl :: findAllFuel fuel r
    | Option.none => findAllFuel fuel t

/-- `re.findall(pattern, cs)`: `cs.length` fuel suffices because every match
consumes at least one character (`matchClause_some_length`). -/
def findAll (cs : List Char) : List Clause :=
  findAllFuel cs.length cs

/-- `"".join("".join(m) for m in matches)` (line 512). -/
def reconstruct (ms : List Clause) : List Char :=
  ms.foldr (fun c acc => c.text ++ acc) []

/-! ## Python dictionaries as insertion-ordered association lists -/

/-- `d.get(k)` / `d[k]`: first binding of `k` (a Python dict has at most one). -/
def alistGet {α : Type} (k : String) : List (String × α) → Option α
  | [] => Option.none
  | (k', v) :: t => if k' = k then some v else alistGet k t

/-- `d[k] = v`: replace the existing binding in place, else append at the end
(Python dicts preserve insertion order). -/
def alistSet {α : Type} (k : String) (v : α) : List (String × α) → List (String × α)
  | [] => [(k, v)]
  | (k', v') :: t => if k' = k then (k, v) :: t else (k', v') :: alistSet k v t

/-- `d.pop(k, None)`: remove the binding of `k`, if any. -/
def alistPop {α : Type} (k : String) : List (String × α) → List (String × α)
  | [] => []
  | (k', v') :: t => if k' = k then t else (k', v') :: alistPop k t

/-- `k in d`. -/
def alistHas {α : Type} (k : String) (d : List (String × α)) : Bool :=
  (alistGet k d).isSome

/-! ## Values and filters -/

/-- A value stored in a structured filter: `parse_query` produces strings,
rationals (standing in for Python floats), booleans, `None`, or lists of
strings; callers additionally store integers (the result limit). -/
inductive QVal : Type
  | str (s : String)
  | num (x : ℚ)
  | bool (b : Bool)
  | none
  | list (l : List String)
  | int (n : ℤ)
  deriving DecidableEq

/-- The parser's structured filter: field name ↦ (operator name ↦ value),
both levels insertion-ordered dictionaries. -/
abbrev Filter : Type := List (String × List (String × QVal))

/-- `result[field][op_name] = value` preceded by
`if field not in result: result[field] = {}` (lines 577–579). -/
def setCond (field opName : String) (v : QVal) (f : Filter) : Filter :=
  alistSet field (alistSet opName v ((alistGet field f).getD [])) f

/-! ## Python `float(...)` on shaped values -/

/-- Numeric value of a digit run. -/
def digitsVal (ds : List Char) : ℕ :=
  ds.foldl (fun a c => 10 * a + (c.toNat - 48)) 0

/-- Optional sign. -/
def pySign : List Char → ℤ × List Char
  | '+' :: t => (1, t)
  | '-' :: t => (-1, t)
  | t => (1, t)

/-- Exponent suffix `([eE][+-]?digits)?`, applied to a finished mantissa;
fails unless the remainder is exactly a well-formed exponent or empty. -/
def pyFloatExp (mant : ℚ) : List Char → Option ℚ
  | [] => some mant
  | c :: t =>
    if c = 'e' ∨ c = 'E' then
      let (es, t1) := pySign t
      let ed := t1.takeWhile Char.isDigit
      let t2 := t1.dropWhile Char.isDigit
      if ed.isEmpty ∨ ¬ t2.isEmpty then Option.none
      else some (mant * (10 : ℚ) ^ (es * (digitsVal ed : ℤ)))
    else Option.none

/-- The body of Python's `float(str)` after whitespace stripping:
`[+-]? ( digits [. digits?] | . digits ) ([eE][+-]?digits)?`.
`inf`/`nan` and digit underscores are accepted by Python but are not
modelled: underscores cannot reach this site (they are replaced by spaces
during value shaping, line 557/559), and the infinite values have no
rational counterpart. -/
def pyFloatCore (cs : List Char) : Option ℚ :=
  let (sgn, cs1) := pySign cs
  let ip := cs1.takeWhile Char.isDigit
  let r1 := cs1.dropWhile Char.isDigit
  match r1 with
  | '.' :: t =>
    let fp := t.takeWhile Char.isDigit
    let r2 := t.dropWhile Char.isDigit
    if ip.isEmpty ∧ fp.isEmpty then Option.none
    else pyFloatExp ((sgn : ℚ) * (digitsVal (ip ++ fp) : ℚ) / (10 : ℚ) ^ fp.length) r2
  | _ =>
    if ip.isEmpty then Option.none
    else pyFloatExp ((sgn : ℚ) * (digitsVal ip : ℚ)) r1

/-- `float(s)` for a string: Python strips surrounding whitespace first. -/
def pyFloat? (s : String) : Option ℚ :=
  pyFloatCore (pyStripWs s.data)

/-! ## The per-clause pipeline of `parse_query` (lines 529–579) -/

/-- The operator-spelling table `op_names` (lines 520–527). -/
def opNames : List (String × String) :=
  [(">=", "gte"), (">", "gt"), ("gt", "gt"), ("gte", "gte"),
   ("<=", "lte"), ("<", "lt"), ("lt", "lt"), ("lte", "lte"),
   ("!=", "neq"), ("==", "eq"), ("=", "eq"), ("eq", "eq"), ("neq", "neq"),
   ("noteq", "neq"), ("not eq", "neq"),
   ("notin", "notin"), ("not in", "notin"), ("nin", "notin"),
   ("in", "in")]

/-- The characters stripped from a raw value token: `value.strip(',[]"')`. -/
def valueStripSet : List Char := [',', '[', ']', '"']

/-- Alias resolution (lines 535–536). -/
def resolveAlias (aliases : List (String × String)) (field : String) : String :=
  match alistGet field aliases with
  | some f => f
  | Option.none => field

/-- One piece of a split `in`/`notin` value: dropped when blank after
whitespace-stripping, otherwise stripped and underscore-replaced
(the comprehension body of line 557). -/
def shapePiece (t : List Char) : Option String :=
  if (pyStripWs t).isEmpty then Option.none
  else some (String.mk (underscoreToSpace (pyStripWs t)))

/-- List shaping for `in`/`notin` (line 557):
`[v.strip().replace('_',' ') for v in value.split(",") if v.strip()]`. -/
def shapeListValue (v : String) : List String :=
  (splitOnComma v.data).filterMap shapePiece

/-- Value shaping (lines 556–559): a list for `in`/`notin`, otherwise the
scalar with underscores replaced by spaces. -/
def shapeValue (opName : String) (v : String) : QVal :=
  if opName = "in" ∨ opName = "notin" then QVal.list (shapeListValue v)
  else QVal.str (String.mk (underscoreToSpace v.data))

/-- The unit-multiplier step (lines 562–566): `value = float(value) * mult`,
with `ValueError`/`TypeError` caught and ignored (a list raises `TypeError`,
a non-numeric string raises `ValueError`; both leave the value unchanged). -/
def applyMultiplier (mults : List (String × ℚ)) (field : String) (v : QVal) : QVal :=
  match alistGet field mults with
  | Option.none => v
  | some m =>
    match v with
    | QVal.str s =>
      match pyFloat? s with
      | some x => QVal.num (x * m)
      | Option.none => v
    | _ => v

/-- Type coercion (lines 569–574): the literal strings `true/True`,
`false/False`, `None/null` become booleans / `None`; everything else —
including values the multiplier step turned into numbers and the lists made
for `in`/`notin`, which never compare equal to a string in Python — is left
unchanged. -/
def coerceValue (v : QVal) : QVal :=
  match v with
  | QVal.str s =>
    if s = "true" ∨ s = "True" then QVal.bool true
    else if s = "false" ∨ s = "False" then QVal.bool false
    else if s = "None" ∨ s = "null" then QVal.none
    else v
  | _ => v

/-- The distinct `ValueError` raise sites of `parse_query`, with the data
each message interpolates. -/
inductive ParseErr : Type
  | unconsumed (queryStr : String)
  | unknownOp (op : String)
  | blankValue (field : String)
  | wildcardNotEq
  deriving DecidableEq

/-- Decidable equality of parser outcomes (used to evaluate the model on
concrete inputs). -/
instance exceptDecEq {e a : Type} [DecidableEq e] [DecidableEq a] :
    DecidableEq (Except e a) := fun
  | Except.ok x, Except.ok y =>
    match decEq x y with
    | isTrue h => isTrue (by rw [h])
    | isFalse h => isFalse (by intro hh; injection hh; contradiction)
  | Except.ok _, Except.error _ => isFalse (by intro hh; exact Except.noConfusion hh)
  | Except.error _, Except.ok _ => isFalse (by intro hh; exact Except.noConfusion hh)
  | Except.error x, Except.error y =>
    match decEq x y with
    | isTrue h => isTrue (by rw [h])
    | isFalse h => isFalse (by intro hh; injection hh; contradiction)

/-- The mutable state of one `parse_query` call: the `result` dictionary,
the caller's `base_query` dictionary, and the fields whose inner dictionary
is still the *same object* in both (shallow-copy sharing).  Invariant (by
construction): a shared field holds equal inner dictionaries in `result`
and `baseAfter`, so mutating `result[field]` in Python is modelled by
applying the same update to both. -/
structure PState : Type where
  result : Filter
  baseAfter : Filter
  shared : List String
  deriving DecidableEq

/-- Process one matched clause (loop body, lines 529–579). -/
def processClause (aliases : List (String × String)) (mults : List (String × ℚ))
    (st : PState) (c : Clause) : Except ParseErr PState :=
  let value0 : String := String.mk (pyStripGen valueStripSet c.value)
  let op0 : String := String.mk (pyStripWs c.op)
  let field := resolveAlias aliases (String.mk c.field)
  match alistGet op0 opNames with
  | Option.none => Except.error (ParseErr.unknownOp op0)
  | some opName =>
    if value0 = "" then Except.error (ParseErr.blankValue field)
    else if value0 = "?" ∨ value0 = "*" ∨ value0 = "any" then
      if opName ≠ "eq" then Except.error ParseErr.wildcardNotEq
      else Except.ok
        { result := alistPop field st.result
          baseAfter := st.baseAfter
          shared := st.shared.erase field }
    else
      let v := coerceValue (applyMultiplier mults field (shapeValue opName value0))
      Except.ok
        { result := setCond field opName v st.result
          baseAfter :=
            if field ∈ st.shared then setCond field opName v st.baseAfter
            else st.baseAfter
          shared := st.shared }

/-- Run the clause loop, stopping at the first error; the state reached so
far is kept because in Python the exception propagates after the earlier
clauses have already mutated the dictionaries. -/
def processAll (aliases : List (String × String)) (mults : List (String × ℚ)) :
    PState → List Clause → PState × Option ParseErr
  | st, [] => (st, Option.none)
  | st, c :: cs =>
    match processClause aliases mults st c with
    | Except.ok st' => processAll aliases mults st' cs
    | Except.error e => (st, some e)

/-- The `query_str` argument: `None`, a string, or a list of strings
(joined with single spaces, lines 494–495). -/
inductive QueryInput : Type
  | none
  | str (s : String)
  | list (l : List String)

/-- The text `parse_query` actually parses, if any. -/
def queryText : QueryInput → Option String
  | QueryInput.none => Option.none
  | QueryInput.str s => some s
  | QueryInput.list l => some (String.intercalate " " l)

/-- `parse_query` on a (non-`None`, possibly blank) string, with the base
dictionary already defaulted: returns the parser's outcome together with
the final value of the caller's `base_query` dictionary. -/
def parseStr (s : String) (base0 : Filter) (aliases : List (String × String))
    (mults : List (String × ℚ)) : Except ParseErr Filter × Filter :=
  let q : String := String.mk (pyStripWs s.data)
  if q.data = [] then (Except.ok base0, base0)
  else
    let ms := findAll q.data
    if reconstruct ms = q.data then
      let p := processAll aliases mults ⟨base0, base0, base0.map Prod.fst⟩ ms
      match p.2 with
      | Option.none => (Except.ok p.1.result, p.1.baseAfter)
      | some e => (Except.error e, p.1.baseAfter)
    else (Except.error (ParseErr.unconsumed q), base0)

/-- `parse_query(query_str, base_query, valid_fields, field_aliases,
field_multipliers)` (lines 476–581).  The first component is the returned
filter (or the raised `ValueError`); the second component is the value of
the caller's `base_query` dictionary after the call (it starts as the
shallow copy's sharing partner).  `valid_fields` is omitted: it only
triggers a non-fatal warning print (line 540) and never affects the result.
For `base_query = None` the second component is the defaulted `{}`. -/
def parseQueryEff (qs : QueryInput) (base : Option Filter)
    (aliases : List (String × String)) (mults : List (String × ℚ)) :
    Except ParseErr Filter × Filter :=
  let base0 := base.getD []
  match queryText qs with
  | Option.none => (Except.ok base0, base0)
  | some s => parseStr s base0 aliases mults

/-- The value `parse_query` returns (or the error it raises). -/
def parseQuery (qs : QueryInput) (base : Option Filter)
    (aliases : List (String × String)) (mults : List (String × ℚ)) :
    Except ParseErr Filter :=
  (parseQueryEff qs base aliases mults).1

/-! ## `SQLiteBackend.search_tasks`: building the SQL text and parameters

The query dictionary handed to `search_tasks` maps field names to
per-operator condition dictionaries, and may additionally carry an `order`
entry (a list of `[field, direction]` pairs) and a `limit` entry (a plain
value).  The embedding distinguishes the three value kinds; entries under
keys other than `order`/`limit` that are not condition dictionaries are
skipped by the `isinstance(conditions, dict)` guard (line 355), exactly as
in the source.  Executing the statement is I/O; `buildSearch` embeds the
pure construction of the SQL string and the bound-parameter list. -/

/-- A value of the query dictionary handed to `search_tasks`. -/
inductive QEntry : Type
  | conds (cs : List (String × QVal))
  | orderSpec (os : List (String × String))
  | val (v : QVal)
  deriving DecidableEq

/-- The query dictionary of `search_tasks`. -/
abbrev Query : Type := List (String × QEntry)

/-- The tag pattern `f'%"{tag}"%'` (line 383). -/
def likePattern (t : String) : String := "%\"" ++ t ++ "\"%"

/-- One `(op, value)` condition (lines 358–391): the clause fragments and
the parameters it contributes.  `in` on `tags` decomposes into one
`tags LIKE ?` per element; `in`/`notin` elsewhere build a placeholder list.
Python iterates the value (`for tag in value` / `for _ in value`), which
for a string iterates its characters; a non-iterable value there would
raise `TypeError` — unreachable for filters built by `parse_query`, whose
`in`/`notin` values are always lists — and is skipped here.  An operator
name outside the eight known ones contributes nothing (no `else` branch in
the source). -/
def translateCond (field op : String) (v : QVal) : List String × List QVal :=
  if op = "eq" then ([field ++ " = ?"], [v])
  else if op = "neq" then ([field ++ " != ?"], [v])
  else if op = "gt" then ([field ++ " > ?"], [v])
  else if op = "gte" then ([field ++ " >= ?"], [v])
  else if op = "lt" then ([field ++ " < ?"], [v])
  else if op = "lte" then ([field ++ " <= ?"], [v])
  else if op = "in" then
    if field = "tags" then
      match v with
      | QVal.list l =>
        (l.map (fun _ => "tags LIKE ?"), l.map (fun t => QVal.str (likePattern t)))
      | QVal.str s =>
        (s.data.map (fun _ => "tags LIKE ?"),
         s.data.map (fun c => QVal.str (likePattern (String.mk [c]))))
      | _ => ([], [])
    else
      match v with
      | QVal.list l =>
        ([field ++ " IN (" ++ String.intercalate "," (l.map (fun _ => "?")) ++ ")"],
         l.map QVal.str)
      | QVal.str s =>
        ([field ++ " IN (" ++ String.intercalate "," (s.data.map (fun _ => "?")) ++ ")"],
         s.data.map (fun c => QVal.str (String.mk [c])))
      | _ => ([], [])
  else if op = "notin" then
    match v with
    | QVal.list l =>
      ([field ++ " NOT IN (" ++ String.intercalate "," (l.map (fun _ => "?")) ++ ")"],
       l.map QVal.str)
    | QVal.str s =>
      ([field ++ " NOT IN (" ++ String.intercalate "," (s.data.map (fun _ => "?")) ++ ")"],
       s.data.map (fun c => QVal.str (String.mk [c])))
    | _ => ([], [])
  else ([], [])

/-- The inner loop over a field's conditions (line 358), in dictionary
order. -/
def translateConds (field : String) : List (String × QVal) → List String × List QVal
  | [] => ([], [])
  | (op, v) :: t =>
    let p := translateCond field op v
    let rest := translateConds field t
    (p.1 ++ rest.1, p.2 ++ rest.2)

/-- The outer loop over the query dictionary (lines 351–391): skip the
`order`/`limit` entries and every non-dictionary value. -/
def whereParts : Query → List String × List QVal
  | [] => ([], [])
  | (name, e) :: t =>
    let rest := whereParts t
    if name = "order" ∨ name = "limit" then rest
    else
      match e with
      | QEntry.conds cs =>
        let p := translateConds name cs
        (p.1 ++ rest.1, p.2 ++ rest.2)
      | _ => rest

/-- `where_sql` (line 393): the clauses joined with `AND`, or `1=1`. -/
def whereSql (q : Query) : String :=
  if (whereParts q).1 = [] then "1=1"
  else String.intercalate " AND " (whereParts q).1

/-- The default ordering (line 395). -/
def defaultOrder : String := "priority DESC, created DESC"

/-- `order_by` (lines 395–400): the explicit ordering directive if present
and non-empty (Python's truthiness of the list), otherwise the default.
An `order` entry that is not a list of pairs is outside the callers'
contract (`search__tasks` always stores `[[field, dir]]`) and falls back to
the default here. -/
def orderBySql (q : Query) : String :=
  match alistGet "order" q with
  | some (QEntry.orderSpec os) =>
    if os = [] then defaultOrder
    else String.intercalate ", " (os.map (fun fd => fd.1 ++ " " ++ fd.2.toUpper))
  | _ => defaultOrder

/-- `limit = query.get('limit', 100)` (line 402); callers store a plain
value under `limit` (`QEntry.val`). -/
def limitParam (q : Query) : QVal :=
  match alistGet "limit" q with
  | some (QEntry.val v) => v
  | _ => QVal.int 100

/-- The SQL text and bound parameters of `search_tasks` (lines 404–405):
`SELECT * FROM tasks WHERE {where_sql} ORDER BY {order_by} LIMIT ?` with
the limit appended as the final bound parameter. -/
def buildSearch (q : Query) : String × List QVal :=
  ("SELECT * FROM tasks WHERE " ++ whereSql q ++ " ORDER BY " ++ orderBySql q
      ++ " LIMIT ?",
   (whereParts q).2 ++ [limitParam q])

/-! ## Auxiliary definitions used by the claim statements -/

/-- Join character-list pieces with commas (used to quantify over
comma-separated inputs in the shaping theorem). -/
def joinCommaL : List (List Char) → List Char
  | [] => []
  | [a] => a
  | a :: b :: r => a ++ ',' :: joinCommaL (b :: r)

/-- Well-formedness of a filter as a Python dictionary of dictionaries:
distinct field keys, and distinct operator keys in every per-field
mapping. -/
def wfFilter (f : Filter) : Prop :=
  (f.map Prod.fst).Nodup ∧ ∀ p ∈ f, (p.2.map Prod.fst).Nodup

instance (f : Filter) : Decidable (wfFilter f) := by
  unfold wfFilter
  infer_instance

/-- Two constraint values agree in shape when, for `in`/`notin`, both are
lists of the same length (the claim's hypothesis); for every other operator
any two values agree (the generated fragment does not inspect them). -/
def sameShapeVal (op : String) (v1 v2 : QVal) : Bool :=
  if op = "in" ∨ op = "notin" then
    match v1, v2 with
    | QVal.list l1, QVal.list l2 => decide (l1.length = l2.length)
    | _, _ => false
  else true

/-- Pointwise shape agreement of two per-field condition dictionaries:
same operator names in the same order, shape-agreeing values. -/
def sameShapeConds : List (String × QVal) → List (String × QVal) → Bool
  | [], [] => true
  | (op1, v1) :: t1, (op2, v2) :: t2 =>
    decide (op1 = op2) && sameShapeVal op1 v1 v2 && sameShapeConds t1 t2
  | _, _ => false

/-- Shape agreement of query entries: condition dictionaries agree
pointwise; `order` directives must be equal (their text is interpolated,
but it is a directive, not a constraint value); plain values (the bound
`limit`) always agree. -/
def sameShapeEntry : QEntry → QEntry → Bool
  | QEntry.conds c1, QEntry.conds c2 => sameShapeConds c1 c2
  | QEntry.orderSpec o1, QEntry.orderSpec o2 => decide (o1 = o2)
  | QEntry.val _, QEntry.val _ => true
  | _, _ => false

/-- Shape agreement of two query dictionaries: same keys in the same order
with shape-agreeing entries. -/
def sameShapeQuery : Query → Query → Bool
  | [], [] => true
  | (n1, e1) :: t1, (n2, e2) :: t2 =>
    decide (n1 = n2) && sameShapeEntry e1 e2 && sameShapeQuery t1 t2
  | _, _ => false

/-- The alias-resolved field of every clause the tokenizer matches — the
only fields whose base entries `parse_query` can mutate. -/
def resolvedFields (qs : QueryInput) (aliases : List (String × String)) :
    List String :=
  match queryText qs with
  | Option.none => []
  | some s =>
    (findAll (pyStripWs s.data)).map
      (fun c => resolveAlias aliases (String.mk c.field))

/-! ## Supporting lemmas -/

theorem length_dropWhile_le (p : Char → Bool) :
    ∀ l : List Char, (l.dropWhile p).length ≤ l.length
  | [] => Nat.le_refl _
  | c :: t => by
    simp only [List.dropWhile]
    split
    · exact Nat.le_trans (length_dropWhile_le p t) (Nat.le_succ _)
    · exact Nat.le_refl _

theorem span1_some_length {p : Char → Bool} {cs a b : List Char}
    (h : span1 p cs = some (a, b)) : b.length < cs.length := by
  match cs with
  | [] => simp [span1] at h
  | c :: t =>
    simp only [span1] at h
    split at h
    · cases h
      exact Nat.lt_succ_of_le (length_dropWhile_le _ t)
    · cases h

theorem tryWords_some_length {ws : List (List Char)} {cs m r : List Char}
    (h : tryWords ws cs = some (m, r)) : r.length < cs.length := by
  induction ws with
  | nil => simp [tryWords] at h
  | cons w ws ih =>
    simp only [tryWords] at h
    split at h
    · rename_i hpre
      split at h
      · rename_i r' hdrop
        cases h
        have hlen : (cs.drop w.length).length ≤ cs.length := by
          simp [List.length_drop]
        rw [hdrop] at hlen
        simp at hlen
        omega
      · exact ih h
    · exact ih h

theorem matchOp_length (cs : List Char) : (matchOp cs).2.length ≤ cs.length := by
  unfold matchOp
  split
  · rename_i p hsym
    unfold matchOpSym at hsym
    simp only at hsym
    split at hsym
    · rename_i sym r hspan
      cases hsym
      exact Nat.le_trans (Nat.le_of_lt (span1_some_length hspan))
        (length_dropWhile_le _ cs)
    · cases hsym
  · split
    · rename_i p hword
      unfold matchOpWord at hword
      split at hword
      · rename_i sp r hspan
        split at hword
        · rename_i w r2 htry
          cases hword
          exact Nat.le_of_lt (Nat.lt_trans (tryWords_some_length htry)
            (span1_some_length hspan))
        · cases hword
      · cases hword
    · simp

theorem matchBracket_some_length {cs m r : List Char}
    (h : matchBracket cs = some (m, r)) : r.length ≤ cs.length := by
  match cs with
  | [] => simp [matchBracket] at h
  | c :: t =>
    unfold matchBracket at h
    split at h
    · rename_i t2 heq
      injection heq with hc ht
      subst ht
      split at h
      · rename_i r' hdrop
        simp only [] at h
        split at h
        · cases h
        · cases h
          have h1 : (List.dropWhile (· ≠ ']') t).length ≤ t.length :=
            length_dropWhile_le _ t
          rw [hdrop] at h1
          simp at h1
          simp
          omega
      · cases h
    · cases h

theorem matchQuoted_some_length {cs m r : List Char}
    (h : matchQuoted cs = some (m, r)) : r.length ≤ cs.length := by
  match cs with
  | [] => simp [matchQuoted] at h
  | c :: t =>
    unfold matchQuoted at h
    split at h
    · rename_i t2 heq
      injection heq with hc ht
      subst ht
      split at h
      · rename_i r' hdrop
        simp only [] at h
        split at h
        · cases h
        · cases h
          have h1 : (List.dropWhile (· ≠ '"') t).length ≤ t.length :=
            length_dropWhile_le _ t
          rw [hdrop] at h1
          simp at h1
          simp
          omega
      · cases h
    · cases h

theorem matchValue_length (cs : List Char) : (matchValue cs).2.length ≤ cs.length := by
  unfold matchValue
  split
  · rename_i p hb
    exact matchBracket_some_length hb
  · split
    · rename_i p hq
      exact matchQuoted_some_length hq
    · split
      · rename_i p hs
        exact Nat.le_of_lt (span1_some_length hs)
      · simp

/-- Every successful match of the pattern consumes at least one character;
this is why `cs.length` fuel makes `findAllFuel` perform the complete
`re.findall` scan. -/
theorem matchClause_some_length {cs : List Char} {cl : Clause} {r : List Char}
    (h : matchClause cs = some (cl, r)) : r.length < cs.length := by
  unfold matchClause at h
  split at h
  · cases h
  · rename_i f r1 hspan
    cases h
    calc (List.dropWhile (· = ' ') (matchValue
            (List.dropWhile (· = ' ') (matchOp r1).2)).2).length
        ≤ (matchValue (List.dropWhile (· = ' ') (matchOp r1).2)).2.length :=
          length_dropWhile_le _ _
      _ ≤ (List.dropWhile (· = ' ') (matchOp r1).2).length := matchValue_length _
      _ ≤ (matchOp r1).2.length := length_dropWhile_le _ _
      _ ≤ r1.length := matchOp_length r1
      _ < cs.length := span1_some_length hspan

theorem alistGet_alistSet_self {α : Type} (k : String) (v : α) :
    ∀ d : List (String × α), alistGet k (alistSet k v d) = some v
  | [] => by simp [alistGet, alistSet]
  | (k', v') :: t => by
    simp only [alistSet]
    split
    · simp [alistGet]
    · rename_i hne
      simp only [alistGet, if_neg hne]
      exact alistGet_alistSet_self k v t

theorem alistGet_alistSet_ne {α : Type} {k k2 : String} (hne : k2 ≠ k) (v : α) :
    ∀ d : List (String × α), alistGet k2 (alistSet k v d) = alistGet k2 d
  | [] => by simp [alistGet, alistSet, Ne.symm hne]
  | (k', v') :: t => by
    simp only [alistSet]
    split
    · rename_i heq
      subst heq
      simp [alistGet, Ne.symm hne]
    · simp only [alistGet]
      split
      · rfl
      · exact alistGet_alistSet_ne hne v t

theorem alistGet_none_of_not_mem {α : Type} {k : String} :
    ∀ {d : List (String × α)}, k ∉ d.map Prod.fst → alistGet k d = Option.none := by
  intro d
  induction d with
  | nil => intro _; rfl
  | cons p t ih =>
    intro h
    simp only [List.map_cons, List.mem_cons] at h
    push_neg at h
    simp only [alistGet, if_neg (Ne.symm h.1)]
    exact ih h.2

theorem alistGet_alistPop_self {α : Type} (k : String) :
    ∀ d : List (String × α), (d.map Prod.fst).Nodup →
      alistGet k (alistPop k d) = Option.none
  | [], _ => rfl
  | (k', v') :: t, hnd => by
    simp only [alistPop]
    split
    · rename_i heq
      subst heq
      exact alistGet_none_of_not_mem (List.nodup_cons.mp hnd).1
    · rename_i hne
      simp only [alistGet, if_neg hne]
      exact alistGet_alistPop_self k t (List.nodup_cons.mp hnd).2

theorem alistGet_alistPop_ne {α : Type} {k k2 : String} (hne : k2 ≠ k) :
    ∀ d : List (String × α), alistGet k2 (alistPop k d) = alistGet k2 d
  | [] => rfl
  | (k', v') :: t => by
    simp only [alistPop]
    split
    · rename_i heq
      subst heq
      simp [alistGet, Ne.symm hne]
    · simp only [alistGet]
      split
      · rfl
      · exact alistGet_alistPop_ne hne t

theorem alistSet_keys_of_mem {α : Type} (k : String) (v : α) :
    ∀ d : List (String × α), k ∈ d.map Prod.fst →
      (alistSet k v d).map Prod.fst = d.map Prod.fst
  | [], h => by simp at h
  | (k', v') :: t, h => by
    simp only [alistSet]
    split
    · rename_i heq
      simp [heq]
    · rename_i hne
      have hmem : k ∈ t.map Prod.fst := by
        simp only [List.map_cons, List.mem_cons] at h
        exact h.resolve_left (fun hk => hne hk.symm)
      simp [alistSet_keys_of_mem k v t hmem]

theorem alistGet_mem_keys {α : Type} {k : String} :
    ∀ {d : List (String × α)}, (alistGet k d).isSome → k ∈ d.map Prod.fst := by
  intro d
  induction d with
  | nil => intro h; simp [alistGet] at h
  | cons p t ih =>
    intro h
    simp only [alistGet] at h
    by_cases hk : p.1 = k
    · simp [hk]
    · rw [if_neg hk] at h
      simp [ih h]

/-! ## C1 — full-consumption invariant -/

/-- C1: whenever rejoining all matched `(field, operator, whitespace, value,
whitespace)` tuples does not reconstruct the (stripped) input exactly,
`parse_query` raises the `ValueError` built at line 514 — carrying the whole
remaining query text, of which the first unconsumed remainder is a suffix —
and returns no filter; unmatched text is never silently dropped.  The
caller's base dictionary is untouched on this path. -/
theorem parse_rejects_unconsumed_input (s : String) (base : Option Filter)
    (aliases : List (String × String)) (mults : List (String × ℚ))
    (h : reconstruct (findAll (pyStripWs s.data)) ≠ pyStripWs s.data) :
    parseQueryEff (QueryInput.str s) base aliases mults =
      (Except.error (ParseErr.unconsumed (String.mk (pyStripWs s.data))),
       base.getD []) := by
  show parseStr s (base.getD []) aliases mults = _
  unfold parseStr
  simp only []
  split
  · rename_i hempty
    exfalso
    apply h
    have hempty' : pyStripWs s.data = [] := hempty
    rw [hempty']
    rfl
  · rfl

/-- Witness for C1 at the input `"]x"`: `re.findall` skips the leading `]`
(no match can start there), so the rejoined matches `"x"` differ from the
input and the parse fails with the unconsumed-text error. -/
theorem parse_rejects_unconsumed_input_witness :
    reconstruct (findAll (pyStripWs "]x".data)) ≠ pyStripWs "]x".data ∧
      parseQueryEff (QueryInput.str "]x") Option.none [] [] =
        (Except.error (ParseErr.unconsumed "]x"), []) :=
  ⟨by decide, parse_rejects_unconsumed_input "]x" Option.none [] [] (by decide)⟩

/-! ## C10 — `None` / blank / empty-list inputs return the base filter -/

/-- C10: a `None` query, an empty or whitespace-only query string, and an
empty argument list all make `parse_query` return `base_query or {}`
without error (lines 494–498), leaving the base dictionary unchanged. -/
theorem parse_blank_returns_base :
    (∀ (base : Option Filter) aliases mults,
        parseQueryEff QueryInput.none base aliases mults =
          (Except.ok (base.getD []), base.getD [])) ∧
    (∀ (base : Option Filter) aliases mults,
        parseQueryEff (QueryInput.str "") base aliases mults =
          (Except.ok (base.getD []), base.getD [])) ∧
    (∀ (base : Option Filter) aliases mults,
        parseQueryEff (QueryInput.list []) base aliases mults =
          (Except.ok (base.getD []), base.getD [])) ∧
    (∀ (s : String) (base : Option Filter) aliases mults,
        pyStripWs s.data = [] →
          parseQueryEff (QueryInput.str s) base aliases mults =
            (Except.ok (base.getD []), base.getD [])) := by
  refine ⟨fun base aliases mults => rfl, fun base aliases mults => rfl,
    fun base aliases mults => rfl, fun s base aliases mults hws => ?_⟩
  show parseStr s (base.getD []) aliases mults = _
  unfold parseStr
  simp only []
  split
  · rfl
  · rename_i hne
    exact absurd hws hne

/-- Witness for C10 on the whitespace-only string `"   "` with a non-empty
base filter. -/
theorem parse_blank_returns_base_witness :
    pyStripWs "   ".data = [] ∧
      parseQueryEff (QueryInput.str "   ")
          (some [("x", [("eq", QVal.str "1")])]) [] [] =
        (Except.ok [("x", [("eq", QVal.str "1")])],
         [("x", [("eq", QVal.str "1")])]) :=
  ⟨by decide,
   parse_blank_returns_base.2.2.2 "   " (some [("x", [("eq", QVal.str "1")])])
     [] [] (by decide)⟩

/-! ## C4 — wildcard values -/

/-- C4: a clause whose stripped value is exactly `?`, `*` or `any` fails
with the wildcard error unless its operator resolves to `eq`; with `eq` it
pops the (alias-resolved) field from the filter — including an entry the
base filter supplied — and adds nothing, so the resulting filter has no
binding for that field (lines 549–553).  Concretely, `status = any` on a
base filter constraining `status` yields a filter with no `status` key, and
`status > any` is rejected. -/
theorem parse_wildcard_semantics :
    (∀ (aliases : List (String × String)) (mults : List (String × ℚ))
        (st : PState) (c : Clause) (opName : String),
        alistGet (String.mk (pyStripWs c.op)) opNames = some opName →
        (String.mk (pyStripGen valueStripSet c.value) = "?" ∨
          String.mk (pyStripGen valueStripSet c.value) = "*" ∨
          String.mk (pyStripGen valueStripSet c.value) = "any") →
        (opName ≠ "eq" →
          processClause aliases mults st c =
            Except.error ParseErr.wildcardNotEq) ∧
        (opName = "eq" → (st.result.map Prod.fst).Nodup →
          processClause aliases mults st c =
            Except.ok
              ⟨alistPop (resolveAlias aliases (String.mk c.field)) st.result,
               st.baseAfter,
               st.shared.erase (resolveAlias aliases (String.mk c.field))⟩ ∧
          alistGet (resolveAlias aliases (String.mk c.field))
              (alistPop (resolveAlias aliases (String.mk c.field)) st.result) =
            Option.none)) ∧
    parseQuery (QueryInput.str "status = any")
        (some [("status", [("eq", QVal.str "pending")])]) [] [] =
      Except.ok [] ∧
    parseQuery (QueryInput.str "status > any") Option.none [] [] =
      Except.error ParseErr.wildcardNotEq := by
  refine ⟨?_, by decide, by decide⟩
  intro aliases mults st c opName hop hw
  have hblank : ¬(String.mk (pyStripGen valueStripSet c.value) = "") := by
    rcases hw with h1 | h1 | h1 <;> rw [h1] <;> decide
  constructor
  · intro hne
    simp only [processClause, hop, if_neg hblank, if_pos hw, if_pos hne]
  · intro heq hnd
    refine ⟨?_, alistGet_alistPop_self _ _ hnd⟩
    have hnn : ¬(opName ≠ "eq") := by simp [heq]
    simp only [processClause, hop, if_neg hblank, if_pos hw, if_neg hnn]

/-- Witness for C4's general part: the clause matched from `status = any`
(groups `status`, ` =`, ` `, `any`, `""`), whose operator resolves to `eq`,
pops `status` from a state holding a `status` constraint. -/
theorem parse_wildcard_semantics_witness :
    alistGet (String.mk (pyStripWs " =".data)) opNames = some "eq" ∧
      (String.mk (pyStripGen valueStripSet "any".data) = "?" ∨
        String.mk (pyStripGen valueStripSet "any".data) = "*" ∨
        String.mk (pyStripGen valueStripSet "any".data) = "any") ∧
      (processClause [] []
          ⟨[("status", [("eq", QVal.str "pending")])],
           [("status", [("eq", QVal.str "pending")])], ["status"]⟩
          ⟨"status".data, " =".data, " ".data, "any".data, []⟩ =
        Except.ok ⟨[], [("status", [("eq", QVal.str "pending")])], []⟩ ∧
        alistGet "status"
            (alistPop "status" [("status", [("eq", QVal.str "pending")])]) =
          Option.none) := by
  refine ⟨by decide, by decide, ?_⟩
  have h := (parse_wildcard_semantics.1 [] []
      ⟨[("status", [("eq", QVal.str "pending")])],
       [("status", [("eq", QVal.str "pending")])], ["status"]⟩
      ⟨"status".data, " =".data, " ".data, "any".data, []⟩ "eq"
      (by decide) (by decide)).2 rfl (by decide)
  exact h

/-! ## C6 — unit multipliers -/

/-- C6: when the clause's field has a configured multiplier, a value that
parses as a float is replaced by the parsed number times the multiplier; a
value that does not parse (including the list values of `in`/`notin`, whose
`float(...)` raises a caught `TypeError`) is left unchanged, and this step
never fails (lines 562–566 — `applyMultiplier` is total).  Concretely,
`size >= 10` with multiplier 1024 on `size` stores the number 10240, not
the string `"10"`. -/
theorem parse_multiplier_semantics :
    (∀ (mults : List (String × ℚ)) (field : String) (m : ℚ) (s : String) (x : ℚ),
        alistGet field mults = some m → pyFloat? s = some x →
        applyMultiplier mults field (QVal.str s) = QVal.num (x * m)) ∧
    (∀ (mults : List (String × ℚ)) (field : String) (s : String),
        pyFloat? s = Option.none →
        applyMultiplier mults field (QVal.str s) = QVal.str s) ∧
    (∀ (mults : List (String × ℚ)) (field : String) (l : List String),
        applyMultiplier mults field (QVal.list l) = QVal.list l) ∧
    parseQuery (QueryInput.str "size >= 10") Option.none [] [("size", 1024)] =
      Except.ok [("size", [("gte", QVal.num 10240)])] := by
  have hconcrete : parseQuery (QueryInput.str "size >= 10") Option.none []
      [("size", 1024)] =
      Except.ok [("size", [("gte",
        QVal.num (((1 : ℤ) : ℚ) * ((10 : ℕ) : ℚ) * 1024))])] := rfl
  refine ⟨?_, ?_, ?_, by rw [hconcrete]; norm_num⟩
  · intro mults field m s x hm hf
    simp [applyMultiplier, hm, hf]
  · intro mults field s hf
    unfold applyMultiplier
    cases halist : alistGet field mults with
    | none => rfl
    | some m => simp [hf]
  · intro mults field l
    unfold applyMultiplier
    cases halist : alistGet field mults with
    | none => rfl
    | some m => rfl

/-- Witness for C6: multiplier 1024 on `size` turns `"10"` into 10240,
leaves the non-numeric `"high"` unchanged, and leaves a list unchanged. -/
theorem parse_multiplier_semantics_witness :
    alistGet "size" [("size", (1024 : ℚ))] = some 1024 ∧
      pyFloat? "10" = some 10 ∧
      applyMultiplier [("size", 1024)] "size" (QVal.str "10") =
        QVal.num (10 * 1024) ∧
      pyFloat? "high" = Option.none ∧
      applyMultiplier [("size", 1024)] "size" (QVal.str "high") =
        QVal.str "high" ∧
      applyMultiplier [("size", 1024)] "size" (QVal.list ["a"]) =
        QVal.list ["a"] := by
  have hf : pyFloat? "10" = some 10 := by
    have h : pyFloat? "10" = some (((1 : ℤ) : ℚ) * ((10 : ℕ) : ℚ)) := rfl
    rw [h]; norm_num
  refine ⟨rfl, hf,
    parse_multiplier_semantics.1 [("size", 1024)] "size" 1024 "10" 10 rfl hf,
    by decide,
    parse_multiplier_semantics.2.1 [("size", 1024)] "size" "high" (by decide),
    parse_multiplier_semantics.2.2.1 [("size", 1024)] "size" ["a"]⟩

/-! ## C7 — value shaping for `in`/`notin` -/


theorem splitOnComma_no_comma : ∀ a : List Char, ',' ∉ a → splitOnComma a = [a]
  | [], _ => rfl
  | c :: t, h => by
    have hc : ¬(c = ',') := fun hc => h (by simp [hc])
    have ht : ',' ∉ t := fun hm => h (List.mem_cons_of_mem _ hm)
    simp only [splitOnComma, if_neg hc]
    rw [splitOnComma_no_comma t ht]

theorem splitOnComma_append_comma :
    ∀ (a b : List Char), ',' ∉ a →
      splitOnComma (a ++ ',' :: b) = a :: splitOnComma b
  | [], b, _ => by simp [splitOnComma]
  | c :: t, b, h => by
    have hc : ¬(c = ',') := fun hc => h (by simp [hc])
    have ht : ',' ∉ t := fun hm => h (List.mem_cons_of_mem _ hm)
    simp only [List.cons_append, splitOnComma, if_neg hc, List.append_eq]
    rw [splitOnComma_append_comma t b ht]

/-- C7: for `in`/`notin` the stored value is the ordered list obtained from
the bracket-stripped value by splitting on commas, whitespace-trimming each
piece, replacing underscores with spaces and dropping blank pieces
(conjunct 3, stated over any comma-join of pieces, with `shapePiece` the
per-piece trim/replace/drop step); for every other operator the scalar is
stored with underscores replaced by spaces (lines 555–559).  Concretely,
`tags in [work,urgent]` stores the list `["work", "urgent"]` in order. -/
theorem parse_value_shaping :
    (∀ (opName : String) (v : String), (opName = "in" ∨ opName = "notin") →
        shapeValue opName v = QVal.list (shapeListValue v)) ∧
    (∀ (opName : String) (v : String), ¬(opName = "in" ∨ opName = "notin") →
        shapeValue opName v = QVal.str (String.mk (underscoreToSpace v.data))) ∧
    (∀ ts : List (List Char), (∀ t ∈ ts, ',' ∉ t) →
        shapeListValue (String.mk (joinCommaL ts)) = ts.filterMap shapePiece) ∧
    parseQuery (QueryInput.str "tags in [work,urgent]") Option.none [] [] =
      Except.ok [("tags", [("in", QVal.list ["work", "urgent"])])] := by
  refine ⟨?_, ?_, ?_, by decide⟩
  · intro opName v h
    unfold shapeValue
    rw [if_pos h]
  · intro opName v h
    unfold shapeValue
    rw [if_neg h]
  · intro ts
    induction ts with
    | nil => intro _; rfl
    | cons a r ih =>
      intro hts
      have ha : ',' ∉ a := hts a (List.mem_cons_self a r)
      have ih' := ih (fun t htm => hts t (List.mem_cons_of_mem a htm))
      cases r with
      | nil =>
        show (splitOnComma (joinCommaL [a])).filterMap shapePiece = _
        rw [show joinCommaL [a] = a from rfl, splitOnComma_no_comma a ha]
      | cons b r' =>
        have ih2 : (splitOnComma (joinCommaL (b :: r'))).filterMap shapePiece =
            (b :: r').filterMap shapePiece := ih'
        show (splitOnComma (joinCommaL (a :: b :: r'))).filterMap shapePiece = _
        rw [show joinCommaL (a :: b :: r') = a ++ ',' :: joinCommaL (b :: r')
              from rfl,
            splitOnComma_append_comma a _ ha,
            List.filterMap_cons, List.filterMap_cons, ih2]

/-- Witness for C7: the `in` operator on `work,urgent` stores the shaped
list, and the split of the two comma-free pieces `work` and `urgent`
returns exactly those pieces in order. -/
theorem parse_value_shaping_witness :
    (("in" : String) = "in" ∨ ("in" : String) = "notin") ∧
      shapeValue "in" "work,urgent" = QVal.list (shapeListValue "work,urgent") ∧
      (∀ t ∈ ["work".data, "urgent".data], ',' ∉ t) ∧
      shapeListValue (String.mk (joinCommaL ["work".data, "urgent".data])) =
        ["work".data, "urgent".data].filterMap shapePiece :=
  ⟨Or.inl rfl,
   parse_value_shaping.1 "in" "work,urgent" (Or.inl rfl),
   by decide,
   parse_value_shaping.2.2.1 ["work".data, "urgent".data] (by decide)⟩

/-! ## C5 — at most one value per (field, operator) pair; last token wins -/


theorem mem_keys_alistSet {α : Type} (k : String) (v : α) (x : String) :
    ∀ d : List (String × α),
      x ∈ (alistSet k v d).map Prod.fst ↔ x = k ∨ x ∈ d.map Prod.fst
  | [] => by simp [alistSet]
  | (k', v') :: t => by
    simp only [alistSet]
    split
    · rename_i heq
      subst heq
      simp
    · simp only [List.map_cons, List.mem_cons, mem_keys_alistSet k v x t]
      tauto

theorem nodup_keys_alistSet {α : Type} (k : String) (v : α) :
    ∀ d : List (String × α), (d.map Prod.fst).Nodup →
      ((alistSet k v d).map Prod.fst).Nodup
  | [], _ => by simp [alistSet]
  | (k', v') :: t, hnd => by
    simp only [alistSet]
    split
    · rename_i heq
      subst heq
      exact hnd
    · rename_i hne
      rw [List.map_cons, List.nodup_cons]
      refine ⟨?_, nodup_keys_alistSet k v t (List.nodup_cons.mp hnd).2⟩
      rw [mem_keys_alistSet]
      push_neg
      exact ⟨hne, (List.nodup_cons.mp hnd).1⟩

theorem mem_alistSet {α : Type} (k : String) (v : α) :
    ∀ d : List (String × α), ∀ p ∈ alistSet k v d, p = (k, v) ∨ p ∈ d
  | [] => by simp [alistSet]
  | (k', v') :: t => by
    simp only [alistSet]
    split
    · intro p hp
      rcases List.mem_cons.mp hp with h | h
      · exact Or.inl h
      · exact Or.inr (List.mem_cons_of_mem _ h)
    · intro p hp
      rcases List.mem_cons.mp hp with h | h
      · exact Or.inr (h ▸ List.mem_cons_self _ _)
      · rcases mem_alistSet k v t p h with h2 | h2
        · exact Or.inl h2
        · exact Or.inr (List.mem_cons_of_mem _ h2)

theorem alistPop_sublist {α : Type} (k : String) :
    ∀ d : List (String × α), (alistPop k d).Sublist d
  | [] => List.Sublist.refl _
  | (k', v') :: t => by
    simp only [alistPop]
    split
    · exact List.sublist_cons_self _ _
    · exact List.Sublist.cons₂ _ (alistPop_sublist k t)

theorem alistGet_mem {α : Type} {k : String} {v : α} :
    ∀ {d : List (String × α)}, alistGet k d = some v → (k, v) ∈ d := by
  intro d
  induction d with
  | nil => intro h; cases h
  | cons p t ih =>
    intro h
    simp only [alistGet] at h
    split at h
    · rename_i heq
      cases h
      rw [List.mem_cons]
      left
      rw [← heq]
    · exact List.mem_cons_of_mem _ (ih h)

theorem wfFilter_alistPop (k : String) {f : Filter} (hwf : wfFilter f) :
    wfFilter (alistPop k f) := by
  refine ⟨List.Nodup.sublist (List.Sublist.map Prod.fst (alistPop_sublist k f))
      hwf.1, ?_⟩
  intro p hp
  exact hwf.2 p ((alistPop_sublist k f).mem hp)

theorem wfFilter_setCond (field opName : String) (v : QVal) {f : Filter}
    (hwf : wfFilter f) : wfFilter (setCond field opName v f) := by
  refine ⟨nodup_keys_alistSet _ _ f hwf.1, ?_⟩
  intro p hp
  rcases mem_alistSet _ _ f p hp with h | h
  · subst h
    apply nodup_keys_alistSet
    cases hg : alistGet field f with
    | none => simp
    | some inner =>
      simpa using hwf.2 (field, inner) (alistGet_mem hg)
  · exact hwf.2 p h

theorem processClause_wf {aliases : List (String × String)}
    {mults : List (String × ℚ)} {st st' : PState} {c : Clause}
    (h : processClause aliases mults st c = Except.ok st')
    (hwf : wfFilter st.result) : wfFilter st'.result := by
  unfold processClause at h
  simp only [] at h
  split at h
  · cases h
  · split at h
    · cases h
    · split at h
      · split at h
        · cases h
        · cases h
          exact wfFilter_alistPop _ hwf
      · cases h
        exact wfFilter_setCond _ _ _ hwf

theorem processAll_wf (aliases : List (String × String))
    (mults : List (String × ℚ)) :
    ∀ (ms : List Clause) (st : PState), wfFilter st.result →
      wfFilter (processAll aliases mults st ms).1.result
  | [], st, hwf => hwf
  | c :: cs, st, hwf => by
    simp only [processAll]
    split
    · rename_i st' hok
      exact processAll_wf aliases mults cs st' (processClause_wf hok hwf)
    · exact hwf

/-- C5: the structured filter maps each (field, operator) pair to at most
one value — well-formedness (distinct keys at both dictionary levels) is
preserved by `parse_query` (conjunct 1) — and one clause's insertion sets
exactly its own (field, operator) entry, leaving every other pair intact
(conjuncts 2–3), so a repeated clause for the same field and operator
overwrites (`status = a status = b` keeps only `b`) while different
operators on one field coexist (`created >= 5 created < 9` keeps both). -/
theorem parse_unique_per_field_op :
    (∀ (qs : QueryInput) (base : Option Filter) (aliases : List (String × String))
        (mults : List (String × ℚ)) (r : Filter),
        wfFilter (base.getD []) →
        parseQuery qs base aliases mults = Except.ok r → wfFilter r) ∧
    (∀ (field opName : String) (v : QVal) (f : Filter),
        alistGet opName ((alistGet field (setCond field opName v f)).getD []) =
          some v) ∧
    (∀ (field opName field2 op2 : String) (v : QVal) (f : Filter),
        ¬(field2 = field ∧ op2 = opName) →
        alistGet op2 ((alistGet field2 (setCond field opName v f)).getD []) =
          alistGet op2 ((alistGet field2 f).getD [])) ∧
    parseQuery (QueryInput.str "status = a status = b") Option.none [] [] =
      Except.ok [("status", [("eq", QVal.str "b")])] ∧
    parseQuery (QueryInput.str "created >= 5 created < 9") Option.none [] [] =
      Except.ok [("created", [("gte", QVal.str "5"), ("lt", QVal.str "9")])] := by
  refine ⟨?_, ?_, ?_, by decide, by decide⟩
  · intro qs base aliases mults r hwf hok
    unfold parseQuery parseQueryEff at hok
    cases hq : queryText qs with
    | none =>
      rw [hq] at hok
      cases hok
      exact hwf
    | some s =>
      rw [hq] at hok
      unfold parseStr at hok
      simp only [] at hok
      split at hok
      · cases hok
        exact hwf
      · split at hok
        · split at hok
          · cases hok
            exact processAll_wf aliases mults _ _ hwf
          · cases hok
        · cases hok
  · intro field opName v f
    unfold setCond
    rw [alistGet_alistSet_self, Option.getD_some, alistGet_alistSet_self]
  · intro field opName field2 op2 v f hne
    unfold setCond
    by_cases hf : field2 = field
    · subst hf
      have hop : op2 ≠ opName := fun h2 => hne ⟨rfl, h2⟩
      rw [alistGet_alistSet_self, Option.getD_some, alistGet_alistSet_ne hop]
    · rw [alistGet_alistSet_ne hf]

/-- Witness for C5: parsing `status = a` onto a well-formed base keeps the
filter well-formed, and the insertion of `("priority", "gte")` leaves a
distinct pair `("status", "eq")` untouched. -/
theorem parse_unique_per_field_op_witness :
    wfFilter ((some ([] : Filter)).getD []) ∧
      parseQuery (QueryInput.str "status = a") (some []) [] [] =
        Except.ok [("status", [("eq", QVal.str "a")])] ∧
      wfFilter [("status", [("eq", QVal.str "a")])] ∧
      ¬(("status" : String) = "priority" ∧ ("eq" : String) = "gte") ∧
      alistGet "eq" ((alistGet "status"
          (setCond "priority" "gte" (QVal.str "5")
            [("status", [("eq", QVal.str "a")])])).getD []) =
        alistGet "eq"
          ((alistGet "status" [("status", [("eq", QVal.str "a")])]).getD []) :=
  ⟨by decide, by decide,
   parse_unique_per_field_op.1 (QueryInput.str "status = a") (some []) [] []
     [("status", [("eq", QVal.str "a")])] (by decide) (by decide),
   by decide,
   parse_unique_per_field_op.2.2.1 "priority" "gte" "status" "eq"
     (QVal.str "5") [("status", [("eq", QVal.str "a")])] (by decide)⟩

/-! ## C2 — `In` on `tags` decomposes into AND-ed `LIKE` clauses -/

/-- C2: an `In` constraint on the multi-valued serialized field `tags` with
an `n`-element list translates to exactly `n` clauses `tags LIKE ?`, one per
element in order, each with its own bound parameter `%"element"%` matching
the element as a delimited substring of the JSON encoding (lines 377–383);
the clauses are joined with ` AND ` in the final SQL (line 393), so all
elements are required.  The concrete two-element list produces exactly two
AND-ed predicates with two bound parameters. -/
theorem search_tags_in_like_decomposition :
    (∀ l : List String,
        translateConds "tags" [("in", QVal.list l)] =
          (l.map (fun _ => "tags LIKE ?"),
           l.map (fun t => QVal.str ("%\"" ++ t ++ "\"%")))) ∧
    (∀ l : List String, l ≠ [] →
        whereSql [("tags", QEntry.conds [("in", QVal.list l)])] =
          String.intercalate " AND " (l.map (fun _ => "tags LIKE ?"))) ∧
    buildSearch [("tags", QEntry.conds [("in", QVal.list ["work", "urgent"])])] =
      ("SELECT * FROM tasks WHERE tags LIKE ? AND tags LIKE ? " ++
         "ORDER BY priority DESC, created DESC LIMIT ?",
       [QVal.str "%\"work\"%", QVal.str "%\"urgent\"%", QVal.int 100]) := by
  refine ⟨?_, ?_, by decide⟩
  · intro l
    simp [translateConds, translateCond, likePattern]
  · intro l hl
    unfold whereSql
    have hw : whereParts [("tags", QEntry.conds [("in", QVal.list l)])] =
        (l.map (fun _ => "tags LIKE ?"),
         l.map (fun t => QVal.str ("%\"" ++ t ++ "\"%"))) := by
      simp [whereParts, translateConds, translateCond, likePattern]
    rw [hw]
    simp only []
    rw [if_neg (by simpa using hl)]

/-- Witness for C2 on the two-element list. -/
theorem search_tags_in_like_decomposition_witness :
    (["work", "urgent"] : List String) ≠ [] ∧
      whereSql [("tags", QEntry.conds [("in", QVal.list ["work", "urgent"])])] =
        String.intercalate " AND "
          (["work", "urgent"].map (fun _ => "tags LIKE ?")) :=
  ⟨by decide,
   search_tags_in_like_decomposition.2.1 ["work", "urgent"] (by decide)⟩

/-! ## C8 — default ordering and default limit -/

/-- C8: a query with no `order` and no `limit` entry translates with the
non-null default ordering `priority DESC, created DESC` (line 395) and the
finite default limit 100, appended as the final bound parameter of the
`LIMIT ?` placeholder (lines 402–405); no translated query is unbounded. -/
theorem search_default_order_and_limit (q : Query)
    (ho : alistGet "order" q = Option.none)
    (hl : alistGet "limit" q = Option.none) :
    defaultOrder = "priority DESC, created DESC" ∧
      buildSearch q =
        ("SELECT * FROM tasks WHERE " ++ whereSql q ++ " ORDER BY " ++
           defaultOrder ++ " LIMIT ?",
         (whereParts q).2 ++ [QVal.int 100]) := by
  refine ⟨rfl, ?_⟩
  unfold buildSearch orderBySql limitParam
  rw [ho, hl]

/-- Witness for C8 on a one-constraint query with no directives. -/
theorem search_default_order_and_limit_witness :
    alistGet "order" [("status", QEntry.conds [("eq", QVal.str "done")])] =
        Option.none ∧
      alistGet "limit" [("status", QEntry.conds [("eq", QVal.str "done")])] =
        Option.none ∧
      (defaultOrder = "priority DESC, created DESC" ∧
        buildSearch [("status", QEntry.conds [("eq", QVal.str "done")])] =
          ("SELECT * FROM tasks WHERE " ++
             whereSql [("status", QEntry.conds [("eq", QVal.str "done")])] ++
             " ORDER BY " ++ defaultOrder ++ " LIMIT ?",
           (whereParts [("status", QEntry.conds [("eq", QVal.str "done")])]).2 ++
             [QVal.int 100])) :=
  ⟨by decide, by decide,
   search_default_order_and_limit [("status", QEntry.conds [("eq", QVal.str "done")])]
     (by decide) (by decide)⟩

/-! ## C3 — SQL text depends only on the filter's shape, never on values -/

theorem map_const_eq_of_length {α β : Type} (b : β) :
    ∀ {l1 l2 : List α}, l1.length = l2.length →
      l1.map (fun _ => b) = l2.map (fun _ => b)
  | [], [], _ => rfl
  | _ :: t1, _ :: t2, h => by
    simp only [List.map_cons]
    rw [map_const_eq_of_length b (by simpa using h)]
  | [], _ :: _, h => by simp at h
  | _ :: _, [], h => by simp at h

theorem translateCond_in_list (f : String) (l : List String) :
    translateCond f "in" (QVal.list l) =
      if f = "tags" then
        (l.map (fun _ => "tags LIKE ?"), l.map (fun t => QVal.str (likePattern t)))
      else
        ([f ++ " IN (" ++ String.intercalate "," (l.map (fun _ => "?")) ++ ")"],
         l.map QVal.str) := rfl

theorem translateCond_notin_list (f : String) (l : List String) :
    translateCond f "notin" (QVal.list l) =
      ([f ++ " NOT IN (" ++ String.intercalate "," (l.map (fun _ => "?")) ++ ")"],
       l.map QVal.str) := rfl

theorem translateCond_text {f op : String} {v1 v2 : QVal}
    (h : sameShapeVal op v1 v2 = true) :
    (translateCond f op v1).1 = (translateCond f op v2).1 := by
  unfold sameShapeVal at h
  by_cases hio : op = "in" ∨ op = "notin"
  · rw [if_pos hio] at h
    split at h
    · rename_i l1 l2
      have hlen : l1.length = l2.length := of_decide_eq_true h
      rcases hio with hi | hn
      · subst hi
        rw [translateCond_in_list, translateCond_in_list]
        by_cases ht : f = "tags"
        · rw [if_pos ht, if_pos ht]
          rw [map_const_eq_of_length _ hlen]
        · rw [if_neg ht, if_neg ht]
          rw [map_const_eq_of_length _ hlen]
      · subst hn
        rw [translateCond_notin_list, translateCond_notin_list]
        rw [map_const_eq_of_length _ hlen]
    · exact Bool.noConfusion h
  · push_neg at hio
    unfold translateCond
    by_cases h0 : op = "eq"
    · rw [if_pos h0, if_pos h0]
    rw [if_neg h0, if_neg h0]
    by_cases h1 : op = "neq"
    · rw [if_pos h1, if_pos h1]
    rw [if_neg h1, if_neg h1]
    by_cases h2 : op = "gt"
    · rw [if_pos h2, if_pos h2]
    rw [if_neg h2, if_neg h2]
    by_cases h3 : op = "gte"
    · rw [if_pos h3, if_pos h3]
    rw [if_neg h3, if_neg h3]
    by_cases h4 : op = "lt"
    · rw [if_pos h4, if_pos h4]
    rw [if_neg h4, if_neg h4]
    by_cases h5 : op = "lte"
    · rw [if_pos h5, if_pos h5]
    rw [if_neg h5, if_neg h5, if_neg hio.1, if_neg hio.1,
      if_neg hio.2, if_neg hio.2]

theorem translateConds_text (f : String) :
    ∀ (c1 c2 : List (String × QVal)), sameShapeConds c1 c2 = true →
      (translateConds f c1).1 = (translateConds f c2).1
  | [], [], _ => rfl
  | (op1, v1) :: t1, (op2, v2) :: t2, h => by
    simp only [sameShapeConds, Bool.and_eq_true, decide_eq_true_eq] at h
    obtain ⟨⟨hop, hval⟩, hrest⟩ := h
    subst hop
    show (translateCond f op1 v1).1 ++ (translateConds f t1).1 =
      (translateCond f op1 v2).1 ++ (translateConds f t2).1
    rw [translateCond_text hval, translateConds_text f t1 t2 hrest]
  | [], (_, _) :: _, h => Bool.noConfusion h
  | (_, _) :: _, [], h => Bool.noConfusion h

theorem whereParts_text :
    ∀ (q1 q2 : Query), sameShapeQuery q1 q2 = true →
      (whereParts q1).1 = (whereParts q2).1
  | [], [], _ => rfl
  | (n1, e1) :: t1, (n2, e2) :: t2, h => by
    simp only [sameShapeQuery, Bool.and_eq_true, decide_eq_true_eq] at h
    obtain ⟨⟨hn, he⟩, ht⟩ := h
    subst hn
    simp only [whereParts]
    split
    · exact whereParts_text t1 t2 ht
    · cases e1 with
      | conds c1 =>
        cases e2 with
        | conds c2 =>
          simp only [sameShapeEntry] at he
          show (translateConds n1 c1).1 ++ (whereParts t1).1 =
            (translateConds n1 c2).1 ++ (whereParts t2).1
          rw [translateConds_text n1 c1 c2 he, whereParts_text t1 t2 ht]
        | orderSpec o2 => exact Bool.noConfusion he
        | val v2 => exact Bool.noConfusion he
      | orderSpec o1 =>
        cases e2 with
        | conds c2 => exact Bool.noConfusion he
        | orderSpec o2 => exact whereParts_text t1 t2 ht
        | val v2 => exact Bool.noConfusion he
      | val v1 =>
        cases e2 with
        | conds c2 => exact Bool.noConfusion he
        | orderSpec o2 => exact Bool.noConfusion he
        | val v2 => exact whereParts_text t1 t2 ht
  | [], (_, _) :: _, h => Bool.noConfusion h
  | (_, _) :: _, [], h => Bool.noConfusion h

theorem alistGet_shape :
    ∀ (q1 q2 : Query) (k : String), sameShapeQuery q1 q2 = true →
      (alistGet k q1 = Option.none ∧ alistGet k q2 = Option.none) ∨
      (∃ e1 e2, alistGet k q1 = some e1 ∧ alistGet k q2 = some e2 ∧
        sameShapeEntry e1 e2 = true)
  | [], [], _, _ => Or.inl ⟨rfl, rfl⟩
  | (n1, e1) :: t1, (n2, e2) :: t2, k, h => by
    simp only [sameShapeQuery, Bool.and_eq_true, decide_eq_true_eq] at h
    obtain ⟨⟨hn, he⟩, ht⟩ := h
    subst hn
    by_cases hk : n1 = k
    · exact Or.inr ⟨e1, e2, by simp [alistGet, hk], by simp [alistGet, hk], he⟩
    · simp only [alistGet, if_neg hk]
      exact alistGet_shape t1 t2 k ht
  | [], (_, _) :: _, _, h => Bool.noConfusion h
  | (_, _) :: _, [], _, h => Bool.noConfusion h

theorem orderBySql_shape {q1 q2 : Query} (h : sameShapeQuery q1 q2 = true) :
    orderBySql q1 = orderBySql q2 := by
  unfold orderBySql
  rcases alistGet_shape q1 q2 "order" h with ⟨h1, h2⟩ | ⟨e1, e2, h1, h2, he⟩
  · rw [h1, h2]
  · rw [h1, h2]
    cases e1 with
    | conds c1 =>
      cases e2 with
      | conds c2 => rfl
      | orderSpec o2 => exact Bool.noConfusion he
      | val v2 => exact Bool.noConfusion he
    | orderSpec o1 =>
      cases e2 with
      | conds c2 => exact Bool.noConfusion he
      | orderSpec o2 =>
        have : o1 = o2 := of_decide_eq_true he
        rw [this]
      | val v2 => exact Bool.noConfusion he
    | val v1 =>
      cases e2 with
      | conds c2 => exact Bool.noConfusion he
      | orderSpec o2 => exact Bool.noConfusion he
      | val v2 => rfl

/-- C3: two query dictionaries that agree on field names, operator names,
`in`/`notin` list lengths and the `order` directive — but carry arbitrarily
different constraint values and limit — translate to character-for-character
identical SQL text; the differing values can only surface in the
bound-parameter list (they are never interpolated into the fragment). -/
theorem search_sql_text_shape_only (q1 q2 : Query)
    (h : sameShapeQuery q1 q2 = true) :
    (buildSearch q1).1 = (buildSearch q2).1 := by
  have hw : whereSql q1 = whereSql q2 := by
    unfold whereSql
    rw [whereParts_text q1 q2 h]
  show "SELECT * FROM tasks WHERE " ++ whereSql q1 ++ " ORDER BY " ++
      orderBySql q1 ++ " LIMIT ?" =
    "SELECT * FROM tasks WHERE " ++ whereSql q2 ++ " ORDER BY " ++
      orderBySql q2 ++ " LIMIT ?"
  rw [hw, orderBySql_shape h]

/-- Witness for C3: two filters with the same shape — equality on `status`,
a two-element `in` list on `tags`, an `order` directive and a `limit` — but
entirely different constraint values (including an injection attempt)
produce identical SQL text. -/
theorem search_sql_text_shape_only_witness :
    sameShapeQuery
        [("status", QEntry.conds [("eq", QVal.str "active")]),
         ("tags", QEntry.conds [("in", QVal.list ["work", "urgent"])]),
         ("order", QEntry.orderSpec [("priority", "desc")]),
         ("limit", QEntry.val (QVal.int 50))]
        [("status", QEntry.conds [("eq", QVal.str "x\" OR 1=1 --")]),
         ("tags", QEntry.conds [("in", QVal.list ["a", "b"])]),
         ("order", QEntry.orderSpec [("priority", "desc")]),
         ("limit", QEntry.val (QVal.int 10000))] = true ∧
      (buildSearch
          [("status", QEntry.conds [("eq", QVal.str "active")]),
           ("tags", QEntry.conds [("in", QVal.list ["work", "urgent"])]),
           ("order", QEntry.orderSpec [("priority", "desc")]),
           ("limit", QEntry.val (QVal.int 50))]).1 =
        (buildSearch
          [("status", QEntry.conds [("eq", QVal.str "x\" OR 1=1 --")]),
           ("tags", QEntry.conds [("in", QVal.list ["a", "b"])]),
           ("order", QEntry.orderSpec [("priority", "desc")]),
           ("limit", QEntry.val (QVal.int 10000))]).1 :=
  ⟨by decide, search_sql_text_shape_only _ _ (by decide)⟩

/-! ## C9 — the base filter is *not* left unchanged (shallow copy)

`parse_query` starts from `result = base_query.copy()` (line 500), a
shallow copy: the per-field inner dictionaries stay shared between `result`
and the caller's `base_query`.  The assignment
`result[field][op_name] = value` (line 579) therefore mutates the caller's
dictionary whenever `field` was present in the base filter.  The top level
of the base dictionary is protected by the copy, so its key sequence never
changes and fields no clause assigns keep their entries. -/

theorem processClause_baseAfter_keys {aliases : List (String × String)}
    {mults : List (String × ℚ)} {st st' : PState} {c : Clause}
    (h : processClause aliases mults st c = Except.ok st')
    (hsub : ∀ x ∈ st.shared, x ∈ st.baseAfter.map Prod.fst) :
    st'.baseAfter.map Prod.fst = st.baseAfter.map Prod.fst ∧
      (∀ x ∈ st'.shared, x ∈ st'.baseAfter.map Prod.fst) := by
  unfold processClause at h
  simp only [] at h
  split at h
  · cases h
  · split at h
    · cases h
    · split at h
      · split at h
        · cases h
        · cases h
          exact ⟨rfl, fun x hx => hsub x (List.mem_of_mem_erase hx)⟩
      · cases h
        constructor
        · simp only []
          split
          · rename_i hmem
            exact alistSet_keys_of_mem _ _ _ (hsub _ hmem)
          · rfl
        · intro x hx
          simp only [] at hx ⊢
          split
          · rename_i hmem
            unfold setCond
            rw [alistSet_keys_of_mem _ _ _ (hsub _ hmem)]
            exact hsub x hx
          · exact hsub x hx

theorem processAll_baseAfter_keys (aliases : List (String × String))
    (mults : List (String × ℚ)) :
    ∀ (ms : List Clause) (st : PState),
      (∀ x ∈ st.shared, x ∈ st.baseAfter.map Prod.fst) →
      (processAll aliases mults st ms).1.baseAfter.map Prod.fst =
        st.baseAfter.map Prod.fst
  | [], _, _ => rfl
  | c :: cs, st, hsub => by
    simp only [processAll]
    split
    · rename_i st' hok
      obtain ⟨hkeys, hsub'⟩ := processClause_baseAfter_keys hok hsub
      rw [processAll_baseAfter_keys aliases mults cs st' hsub', hkeys]
    · rfl

theorem processClause_baseAfter_other {aliases : List (String × String)}
    {mults : List (String × ℚ)} {st st' : PState} {c : Clause} {f : String}
    (h : processClause aliases mults st c = Except.ok st')
    (hf : f ≠ resolveAlias aliases (String.mk c.field)) :
    alistGet f st'.baseAfter = alistGet f st.baseAfter := by
  unfold processClause at h
  simp only [] at h
  split at h
  · cases h
  · split at h
    · cases h
    · split at h
      · split at h
        · cases h
        · cases h
          rfl
      · cases h
        simp only []
        split
        · exact alistGet_alistSet_ne hf _ _
        · rfl

theorem processAll_baseAfter_other (aliases : List (String × String))
    (mults : List (String × ℚ)) :
    ∀ (ms : List Clause) (st : PState) (f : String),
      f ∉ ms.map (fun c => resolveAlias aliases (String.mk c.field)) →
      alistGet f (processAll aliases mults st ms).1.baseAfter =
        alistGet f st.baseAfter
  | [], _, _, _ => rfl
  | c :: cs, st, f, hf => by
    simp only [List.map_cons, List.mem_cons] at hf
    push_neg at hf
    simp only [processAll]
    split
    · rename_i st' hok
      rw [processAll_baseAfter_other aliases mults cs st' f hf.2,
        processClause_baseAfter_other hok hf.1]
    · rfl

/-- C9 is falsified by the code: parsing `status == done` against a base
filter `{"status": {"eq": "pending"}}` leaves the caller's base dictionary
holding `{"status": {"eq": "done"}}` — the clause wrote through the inner
dictionary shared by the shallow copy of line 500. -/
theorem parse_mutates_base_counterexample :
    (parseQueryEff (QueryInput.str "status == done")
        (some [("status", [("eq", QVal.str "pending")])]) [] []).2 ≠
      [("status", [("eq", QVal.str "pending")])] := by decide

/-- C9 (amended): `parse_query` computes its result purely from its
arguments (it is a function here), never adds or removes top-level entries
of the caller's base dictionary, and leaves untouched the entry of every
field to which no parsed clause (after alias resolution) assigns a
constraint; but a clause assigning a field present in the base filter
mutates that field's nested operator mapping in place through the shallow
copy, so the base filter is not in general equal to its pre-call value. -/
theorem parse_base_effects :
    (∀ (qs : QueryInput) (base : Option Filter)
        (aliases : List (String × String)) (mults : List (String × ℚ)),
        ((parseQueryEff qs base aliases mults).2).map Prod.fst =
          (base.getD []).map Prod.fst) ∧
    (∀ (qs : QueryInput) (base : Option Filter)
        (aliases : List (String × String)) (mults : List (String × ℚ))
        (f : String),
        f ∉ resolvedFields qs aliases →
        alistGet f (parseQueryEff qs base aliases mults).2 =
          alistGet f (base.getD [])) := by
  constructor
  · intro qs base aliases mults
    unfold parseQueryEff
    cases hq : queryText qs with
    | none => rfl
    | some s =>
      simp only []
      unfold parseStr
      simp only []
      split
      · rfl
      · split
        · split
          · exact processAll_baseAfter_keys aliases mults _ _ (fun x hx => hx)
          · exact processAll_baseAfter_keys aliases mults _ _ (fun x hx => hx)
        · rfl
  · intro qs base aliases mults f hf
    unfold resolvedFields at hf
    unfold parseQueryEff
    cases hq : queryText qs with
    | none => rfl
    | some s =>
      rw [hq] at hf
      simp only []
      unfold parseStr
      simp only []
      split
      · rfl
      · split
        · split
          · exact processAll_baseAfter_other aliases mults _ _ f hf
          · exact processAll_baseAfter_other aliases mults _ _ f hf
        · rfl

/-- Witness for C9's amended theorem: parsing `priority >= 5` over a base
filter constraining `status` keeps the base dictionary's key list and its
`status` entry intact (`status` is assigned by no clause). -/
theorem parse_base_effects_witness :
    ((parseQueryEff (QueryInput.str "priority >= 5")
        (some [("status", [("eq", QVal.str "pending")])]) [] []).2).map
        Prod.fst =
      ((some [("status", [("eq", QVal.str "pending")])] :
          Option Filter).getD []).map Prod.fst ∧
    ("status" ∉ resolvedFields (QueryInput.str "priority >= 5") []) ∧
    alistGet "status"
        (parseQueryEff (QueryInput.str "priority >= 5")
          (some [("status", [("eq", QVal.str "pending")])]) [] []).2 =
      alistGet "status"
        ((some [("status", [("eq", QVal.str "pending")])] :
          Option Filter).getD []) :=
  ⟨parse_base_effects.1 (QueryInput.str "priority >= 5")
     (some [("status", [("eq", QVal.str "pending")])]) [] [],
   by decide,
   parse_base_effects.2 (QueryInput.str "priority >= 5")
     (some [("status", [("eq", QVal.str "pending")])]) [] [] "status"
     (by decide)⟩

end CloudTask
